import Mathlib

/-!
Verification of the and-desk display/UI stack: a shallow embedding of
`display_driver.py`, `ui.py` and `ui-both-displays.py`, with theorems about
pixel encoding, SPI transfer traces, touch calibration, debouncing,
hit-testing and the focus timer.
-/

set_option maxRecDepth 10000

namespace AndDesk

/-! ## RGB565 pixel encoding (ILI9341.image / ST7735.image) -/

/-- One pixel's 16-bit RGB565 encoding, from `ILI9341.image` / `ST7735.image`:
`c = ((r & 0xF8) << 8) | ((g & 0xFC) << 3) | (b >> 3)`. -/
def rgb565 (r g b : ℕ) : ℕ :=
  ((r &&& 0xF8) <<< 8) ||| ((g &&& 0xFC) <<< 3) ||| (b >>> 3)

/-- The packed pixel buffer, from the loop in `image`: for each pixel, the high
byte of its RGB565 code is written first, then the low byte
(`buf[i*2] = c >> 8; buf[i*2+1] = c & 0xFF`). -/
def packPixels : List (ℕ × ℕ × ℕ) → List ℕ
  | [] => []
  | (r, g, b) :: px => (rgb565 r g b >>> 8) :: (rgb565 r g b &&& 0xFF) :: packPixels px

/-- Modelled from the spec: the repository has no decoder, so the canonical
RGB565 decode described by the spec sentence "the 16-bit encode/decode round
trip preserves the top 5/6/5 bits of each channel exactly" is used: red is
bits 15..11, green bits 10..5, blue bits 4..0, each shifted back to its
position in the byte. -/
def unpack565 (c : ℕ) : ℕ × ℕ × ℕ :=
  ((c >>> 11) <<< 3, ((c >>> 5) &&& 0x3F) <<< 2, (c &&& 0x1F) <<< 3)

theorem and248_eq (x : ℕ) (hx : x < 256) : x &&& 248 = 8 * (x / 8) := by
  revert x
  decide

theorem and252_eq (x : ℕ) (hx : x < 256) : x &&& 252 = 4 * (x / 4) := by
  revert x
  decide

theorem lor_two_pow_mul (a : ℕ) {b i : ℕ} (h : b < 2 ^ i) :
    (2 ^ i * a) ||| b = 2 ^ i * a + b := by
  apply Nat.eq_of_testBit_eq
  intro j
  rw [Nat.testBit_lor]
  have h0 : (0 : ℕ) < 2 ^ i := Nat.pos_pow_of_pos i (by norm_num)
  have ha := Nat.testBit_mul_pow_two_add a h j
  have hz : (2 ^ i * a).testBit j = if j < i then false else a.testBit (j - i) := by
    have := Nat.testBit_mul_pow_two_add a h0 j
    simpa using this
  rw [ha, hz]
  by_cases hj : j < i
  · simp [hj]
  · simp only [hj, if_false]
    have hbj : b.testBit j = false := by
      apply Nat.testBit_eq_false_of_lt
      exact lt_of_lt_of_le h (Nat.pow_le_pow_right (by norm_num) (le_of_not_lt hj))
    simp [hbj]

theorem rgb565_arith (r g b : ℕ) (hr : r < 256) (hg : g < 256) (hb : b < 256) :
    rgb565 r g b = 2048 * (r / 8) + 32 * (g / 4) + b / 8 := by
  unfold rgb565
  rw [and248_eq r hr, and252_eq g hg]
  rw [Nat.shiftLeft_eq, Nat.shiftLeft_eq, Nat.shiftRight_eq_div_pow]
  have h1 : 8 * (r / 8) * 2 ^ 8 = 2 ^ 11 * (r / 8) := by ring
  have h2 : 4 * (g / 4) * 2 ^ 3 = 2 ^ 5 * (g / 4) := by ring
  rw [h1, h2]
  have hB : (2 : ℕ) ^ 5 * (g / 4) < 2 ^ 11 := by omega
  have hb8 : b / 2 ^ 3 < 2 ^ 5 := by omega
  rw [lor_two_pow_mul (r / 8) hB]
  have hsum : 2 ^ 11 * (r / 8) + 2 ^ 5 * (g / 4) = 2 ^ 5 * (64 * (r / 8) + g / 4) := by ring
  rw [hsum, lor_two_pow_mul (64 * (r / 8) + g / 4) hb8]
  have hbd : b / 2 ^ 3 = b / 8 := by norm_num
  rw [hbd]
  ring

theorem and63_eq_mod (x : ℕ) : x &&& 63 = x % 64 := by
  have h := Nat.and_pow_two_sub_one_eq_mod x 6
  norm_num at h
  exact h

theorem and31_eq_mod (x : ℕ) : x &&& 31 = x % 32 := by
  have h := Nat.and_pow_two_sub_one_eq_mod x 5
  norm_num at h
  exact h

theorem unpack_rgb565 (r g b : ℕ) (hr : r < 256) (hg : g < 256) (hb : b < 256) :
    unpack565 (rgb565 r g b) = (r &&& 0xF8, g &&& 0xFC, b &&& 0xF8) := by
  rw [rgb565_arith r g b hr hg hb]
  unfold unpack565
  rw [Nat.shiftRight_eq_div_pow, Nat.shiftRight_eq_div_pow, Nat.shiftLeft_eq,
    Nat.shiftLeft_eq, Nat.shiftLeft_eq, and63_eq_mod, and31_eq_mod,
    and248_eq r hr, and252_eq g hg, and248_eq b hb]
  have hR : r / 8 < 32 := by omega
  have hG : g / 4 < 64 := by omega
  have hB : b / 8 < 32 := by omega
  refine Prod.ext ?_ (Prod.ext ?_ ?_) <;> simp only
  · omega
  · omega
  · omega

theorem packPixels_get (px : List (ℕ × ℕ × ℕ)) :
    ∀ (i : ℕ) (p : ℕ × ℕ × ℕ), px.get? i = some p →
      (packPixels px).get? (2 * i) = some (rgb565 p.1 p.2.1 p.2.2 >>> 8) ∧
      (packPixels px).get? (2 * i + 1) = some (rgb565 p.1 p.2.1 p.2.2 &&& 0xFF) := by
  induction px with
  | nil => intro i p h; simp [List.get?] at h
  | cons q px ih =>
    intro i p h
    cases i with
    | zero =>
      obtain ⟨r, g, b⟩ := q
      simp only [List.get?] at h
      cases h
      simp [packPixels]
    | succ i =>
      obtain ⟨r, g, b⟩ := q
      simp only [List.get?] at h
      have h2 : 2 * (i + 1) = (2 * i + 1) + 1 := by ring
      rw [h2]
      simpa [packPixels] using ih i p h

/-- Claim C1: every frame pixel is encoded from 24-bit RGB to 16 bits keeping
red's top 5, green's top 6 and blue's top 5 bits, written high byte first at
consecutive positions of the packed buffer; (255,0,0) encodes to 0xF800,
(0,255,0) to 0x07E0, (0,0,255) to 0x001F, and the encode/decode round trip
preserves the top 5/6/5 bits of each channel exactly. -/
theorem rgb565_encode_spec (r g b : ℕ) (hr : r < 256) (hg : g < 256) (hb : b < 256) :
    rgb565 255 0 0 = 0xF800 ∧ rgb565 0 255 0 = 0x07E0 ∧ rgb565 0 0 255 = 0x001F ∧
    unpack565 (rgb565 r g b) = (r &&& 0xF8, g &&& 0xFC, b &&& 0xF8) ∧
    ∀ (px : List (ℕ × ℕ × ℕ)) (i : ℕ) (p : ℕ × ℕ × ℕ), px.get? i = some p →
      (packPixels px).get? (2 * i) = some (rgb565 p.1 p.2.1 p.2.2 >>> 8) ∧
      (packPixels px).get? (2 * i + 1) = some (rgb565 p.1 p.2.1 p.2.2 &&& 0xFF) := by
  refine ⟨by decide, by decide, by decide, unpack_rgb565 r g b hr hg hb, ?_⟩
  intro px i p h
  exact packPixels_get px i p h

/-- Witness for C1 at the concrete pixel (200, 100, 50). -/
theorem rgb565_encode_spec_witness :
    unpack565 (rgb565 200 100 50) = (200 &&& 0xF8, 100 &&& 0xFC, 50 &&& 0xF8) :=
  (rgb565_encode_spec 200 100 50 (by decide) (by decide) (by decide)).2.2.2.1

/-! ## SPI transfer traces (_write_bytes / _cmd / _dat / _cmd_dat) -/

/-- Observable events on the SPI bus and GPIO pins during a transfer. -/
inductive BusEv where
  | setSpeed (hz : ℕ)
  | setDC (mode : Bool)
  | csLow
  | csHigh
  | write (chunk : List ℕ)
deriving DecidableEq

/-- The chunking performed by the loop `for i in range(0, len(data), 4096):
spi.writebytes2(data[i:i+4096])` in `_write_bytes`. -/
def chunks (data : List ℕ) : List (List ℕ) :=
  (List.range ((data.length + 4095) / 4096)).map fun k => (data.drop (4096 * k)).take 4096

/-- Event trace of `_write_bytes(cs, dc, dc_mode, data, speed)` (the body runs
under the bus lock): set speed, set DC, assert CS, write the data in 4096-byte
chunks, deassert CS. -/
def writeBytesTrace (dcMode : Bool) (data : List ℕ) (speed : ℕ) : List BusEv :=
  BusEv.setSpeed speed :: BusEv.setDC dcMode :: BusEv.csLow ::
    ((chunks data).map BusEv.write ++ [BusEv.csHigh])

/-- Event trace of `_cmd_dat(cs, dc, cmd, data, speed)`: one `_write_bytes`
call for the command byte (DC low), then, when the payload is nonempty
(`if data:`), a second `_write_bytes` call for the payload (DC high). -/
def cmdDatTrace (c : ℕ) (data : List ℕ) (speed : ℕ) : List BusEv :=
  writeBytesTrace false [c] speed ++
    (if data.isEmpty then [] else writeBytesTrace true data speed)

def isWrite : BusEv → Bool
  | BusEv.write _ => true
  | _ => false

/-- From the claim's wording: does some CS deassertion occur strictly before a
later write event?  The claim asserts this never happens within one logical
command+payload transfer. -/
def deassertBeforeWrite : List BusEv → Bool
  | [] => false
  | BusEv.csHigh :: evs => evs.any isWrite || deassertBeforeWrite evs
  | _ :: evs => deassertBeforeWrite evs

/-- Claim C2 counterexample: in the trace of the logical command+payload
transfer `_cmd_dat(cs, dc, 0x2A, [0xAB], speed)`, chip-select is deasserted
after the command byte and before the payload byte, so a deassertion does
occur strictly before the last write of the transfer — CS is not held for the
full command+payload duration as the claim states. -/
theorem cmd_dat_cs_counterexample :
    deassertBeforeWrite (cmdDatTrace 0x2A [0xAB] 40000000) = true := by
  decide

theorem deassertBeforeWrite_window (l : List (List ℕ)) :
    deassertBeforeWrite (l.map BusEv.write ++ [BusEv.csHigh]) = false := by
  induction l with
  | nil => simp [deassertBeforeWrite]
  | cons c l ih => simpa [deassertBeforeWrite] using ih

/-- Claim C2 (amended): a logical command+payload transfer is two back-to-back
CS windows, one for the command byte and one for the payload; within each
window CS is asserted before the first byte, held through that window's last
byte and deasserted only at the window's end (each window runs under the bus
mutex), but CS is deasserted between the command window and the payload
window. -/
theorem cmd_dat_cs_windows (c : ℕ) (data : List ℕ) (speed : ℕ) (hne : data ≠ []) :
    cmdDatTrace c data speed =
      writeBytesTrace false [c] speed ++ writeBytesTrace true data speed ∧
    deassertBeforeWrite (writeBytesTrace false [c] speed) = false ∧
    deassertBeforeWrite (writeBytesTrace true data speed) = false ∧
    (∀ (dcMode : Bool),
      writeBytesTrace dcMode data speed =
        BusEv.setSpeed speed :: BusEv.setDC dcMode :: BusEv.csLow ::
          ((chunks data).map BusEv.write ++ [BusEv.csHigh]) ∧
      (writeBytesTrace dcMode data speed).getLast? = some BusEv.csHigh) := by
  refine ⟨?_, ?_, ?_, ?_⟩
  · unfold cmdDatTrace
    rw [if_neg (by simpa [List.isEmpty_iff] using hne)]
  · simpa [writeBytesTrace, deassertBeforeWrite] using deassertBeforeWrite_window (chunks [c])
  · simpa [writeBytesTrace, deassertBeforeWrite] using deassertBeforeWrite_window (chunks data)
  · intro dcMode
    refine ⟨rfl, ?_⟩
    show ((BusEv.setSpeed speed :: BusEv.setDC dcMode :: BusEv.csLow ::
      (chunks data).map BusEv.write) ++ [BusEv.csHigh]).getLast? = some BusEv.csHigh
    exact List.getLast?_concat _

/-- Witness for the amended C2 at the concrete transfer (0x2A, [0xAB]). -/
theorem cmd_dat_cs_windows_witness :
    deassertBeforeWrite (writeBytesTrace false [0x2A] 40000000) = false ∧
    deassertBeforeWrite (writeBytesTrace true [0xAB] 40000000) = false :=
  ⟨(cmd_dat_cs_windows 0x2A [0xAB] 40000000 (by decide)).2.1,
   (cmd_dat_cs_windows 0x2A [0xAB] 40000000 (by decide)).2.2.1⟩

/-! ## Touch calibration (read_touch) -/

def SCREEN_W : ℤ := 320
def SCREEN_H : ℤ := 240
def CAL_X_MIN : ℤ := 445
def CAL_X_MAX : ℤ := 3492
def CAL_Y_MIN : ℤ := 606
def CAL_Y_MAX : ℤ := 3615
def CAL_SWAP_XY : Bool := false
def CAL_FLIP_X : Bool := false
def CAL_FLIP_Y : Bool := false

/-- The calibration mapping of `read_touch` (the path taken once the IRQ line
reports a touch), with the four calibration bounds as parameters.  Python's
`int((r - lo) / max(1, hi - lo) * extent)` computes in floats; it is modelled
as the exact rational value truncated toward zero, which is
`Int.tdiv ((r - lo) * extent) (max 1 (hi - lo))` (at the calibration extremes
the float computation is exact, so the two agree there). -/
def read_touch_cal (xmin xmax ymin ymax : ℤ) (rx ry : ℤ) : ℤ × ℤ :=
  let rxy := if CAL_SWAP_XY then (ry, rx) else (rx, ry)
  let x := Int.tdiv ((rxy.1 - xmin) * SCREEN_W) (max 1 (xmax - xmin))
  let y := Int.tdiv ((rxy.2 - ymin) * SCREEN_H) (max 1 (ymax - ymin))
  let x := if CAL_FLIP_X then SCREEN_W - 1 - x else x
  let y := if CAL_FLIP_Y then SCREEN_H - 1 - y else y
  (max 0 (min (SCREEN_W - 1) x), max 0 (min (SCREEN_H - 1) y))

/-- `read_touch`'s mapping with the configured calibration profile. -/
def read_touch_map (rx ry : ℤ) : ℤ × ℤ :=
  read_touch_cal CAL_X_MIN CAL_X_MAX CAL_Y_MIN CAL_Y_MAX rx ry

/-- Claim C3: for every raw pair the calibrated coordinate lies within
[0, W-1] x [0, H-1] (out-of-range values are clamped), and the four
calibration extremes map to the four screen corners under the configured
profile. -/
theorem read_touch_bounds_corners (rx ry : ℤ) :
    (0 ≤ (read_touch_map rx ry).1 ∧ (read_touch_map rx ry).1 ≤ SCREEN_W - 1 ∧
     0 ≤ (read_touch_map rx ry).2 ∧ (read_touch_map rx ry).2 ≤ SCREEN_H - 1) ∧
    read_touch_map CAL_X_MIN CAL_Y_MIN = (0, 0) ∧
    read_touch_map CAL_X_MAX CAL_Y_MIN = (SCREEN_W - 1, 0) ∧
    read_touch_map CAL_X_MIN CAL_Y_MAX = (0, SCREEN_H - 1) ∧
    read_touch_map CAL_X_MAX CAL_Y_MAX = (SCREEN_W - 1, SCREEN_H - 1) := by
  refine ⟨?_, by decide, by decide, by decide, by decide⟩
  simp only [read_touch_map, read_touch_cal, CAL_SWAP_XY, CAL_FLIP_X, CAL_FLIP_Y,
    SCREEN_W, SCREEN_H, Bool.false_eq_true, if_false]
  refine ⟨?_, ?_, ?_, ?_⟩ <;> omega

/-- Claim C4 counterexample: with a degenerate calibration range
(`max == min` on both axes) the per-sample mapping still executes and returns
an ordinary clamped pixel — the degenerate range is handled at per-sample time
by clamping the divisor (`max(1, ...)`), and no construction-time rejection
exists anywhere in the code, contrary to the claim. -/
theorem degenerate_cal_handled_per_sample :
    read_touch_cal 445 445 606 606 500 700 = (319, 239) := by
  decide

/-- Claim C4 (amended): the code never rejects a degenerate calibration range
at construction; instead `read_touch` guards every sample by clamping the
divisor to at least 1 (`max(1, hi - lo)`), so division by a zero range never
occurs under any calibration values and the result is still clamped in
bounds. -/
theorem degenerate_cal_guard (xmin xmax ymin ymax rx ry : ℤ) :
    1 ≤ max 1 (xmax - xmin) ∧ 1 ≤ max 1 (ymax - ymin) ∧
    (0 ≤ (read_touch_cal xmin xmax ymin ymax rx ry).1 ∧
     (read_touch_cal xmin xmax ymin ymax rx ry).1 ≤ SCREEN_W - 1 ∧
     0 ≤ (read_touch_cal xmin xmax ymin ymax rx ry).2 ∧
     (read_touch_cal xmin xmax ymin ymax rx ry).2 ≤ SCREEN_H - 1) := by
  refine ⟨le_max_left 1 _, le_max_left 1 _, ?_⟩
  simp only [read_touch_cal, CAL_SWAP_XY, CAL_FLIP_X, CAL_FLIP_Y,
    SCREEN_W, SCREEN_H, Bool.false_eq_true, if_false]
  refine ⟨?_, ?_, ?_, ?_⟩ <;> omega

/-! ## Touch noise filter (_raw_touch's per-channel `ch`) -/

/-- The per-channel noise filter of `_raw_touch.ch`: collect the 8 raw
samples, sort them ascending (`vals.sort()`), and return
`sum(vals[2:6]) // 4` — the mean of the middle 4 values. -/
def chFilter (vals : List ℕ) : ℕ :=
  (((vals.insertionSort (· ≤ ·)).drop 2).take 4).sum / 4

/-- Claim C6: for every multiset of 8 samples the filter returns the mean of
the middle 4 sorted values; the output is invariant under permutation of the
input order and lies between the minimum and the maximum of the input set. -/
theorem chFilter_spec (l l' : List ℕ) (h8 : l.length = 8) (hperm : l'.Perm l)
    (m M : ℕ) (hm : ∀ x ∈ l, m ≤ x) (hM : ∀ x ∈ l, x ≤ M) :
    chFilter l' = chFilter l ∧ m ≤ chFilter l ∧ chFilter l ≤ M := by
  have hsort : l'.insertionSort (· ≤ ·) = l.insertionSort (· ≤ ·) :=
    List.eq_of_perm_of_sorted
      (((List.perm_insertionSort _ l').trans hperm).trans
        (List.perm_insertionSort _ l).symm)
      (List.sorted_insertionSort _ l') (List.sorted_insertionSort _ l)
  refine ⟨by rw [chFilter, chFilter, hsort], ?_, ?_⟩
  all_goals
    have hmem : ∀ x ∈ ((l.insertionSort (· ≤ ·)).drop 2).take 4, x ∈ l := by
      intro x hx
      have h1 := List.mem_of_mem_drop (List.mem_of_mem_take hx)
      exact (List.mem_insertionSort _).mp h1
    have hlen : (((l.insertionSort (· ≤ ·)).drop 2).take 4).length = 4 := by
      rw [List.length_take, List.length_drop, List.length_insertionSort, h8]
      decide
  · have hsum : m * 4 ≤ (((l.insertionSort (· ≤ ·)).drop 2).take 4).sum := by
      have := List.card_nsmul_le_sum (((l.insertionSort (· ≤ ·)).drop 2).take 4) m
        (fun x hx => hm x (hmem x hx))
      rw [hlen] at this
      simpa [smul_eq_mul, Nat.mul_comm] using this
    exact (Nat.le_div_iff_mul_le (by norm_num)).mpr hsum
  · have hsum : (((l.insertionSort (· ≤ ·)).drop 2).take 4).sum ≤ 4 * M := by
      have := List.sum_le_card_nsmul (((l.insertionSort (· ≤ ·)).drop 2).take 4) M
        (fun x hx => hM x (hmem x hx))
      rw [hlen] at this
      simpa [smul_eq_mul] using this
    calc chFilter l ≤ 4 * M / 4 := Nat.div_le_div_right hsum
    _ = M := Nat.mul_div_cancel_left M (by norm_num)

/-- Witness for C6 on the concrete sample set [5,1,9,3,7,2,8,4] and the
permutation [1,2,3,4,5,7,8,9] of it. -/
theorem chFilter_spec_witness :
    chFilter [1, 2, 3, 4, 5, 7, 8, 9] = chFilter [5, 1, 9, 3, 7, 2, 8, 4] ∧
    1 ≤ chFilter [5, 1, 9, 3, 7, 2, 8, 4] ∧ chFilter [5, 1, 9, 3, 7, 2, 8, 4] ≤ 9 :=
  chFilter_spec [5, 1, 9, 3, 7, 2, 8, 4] [1, 2, 3, 4, 5, 7, 8, 9]
    (by decide) (by decide) 1 9 (by decide) (by decide)

/-! ## Hit-testing (ui.hit_test) -/

def SCREEN_DASHBOARD : String := "dashboard"
def SCREEN_APPS : String := "apps"
def SCREEN_BRIEF : String := "brief"
def SCREEN_EMAILS : String := "emails"
def SCREEN_SYSMON : String := "sysmon"
def SCREEN_FOCUS : String := "focus"

def ILI_H : ℤ := 240
def BOT_H : ℤ := 18

/-- `ui.hit_test(tx, ty, regions)`: scan the regions in declaration order and
return the payload of the first whose inclusive rectangle contains the point
(`x0 <= tx <= x1 and y0 <= ty <= y1`), else `None`. -/
def hit_test {α : Type} (tx ty : ℤ) : List (ℤ × ℤ × ℤ × ℤ × α) → Option α
  | [] => none
  | (x0, y0, x1, y1, payload) :: rest =>
      if x0 ≤ tx ∧ tx ≤ x1 ∧ y0 ≤ ty ∧ ty ≤ y1 then some payload
      else hit_test tx ty rest

/-- A region's inclusive-rectangle membership test, as a predicate on the
region tuple (x0, y0, x1, y1, payload). -/
def inRect {α : Type} (tx ty : ℤ) (r : ℤ × ℤ × ℤ × ℤ × α) : Prop :=
  r.1 ≤ tx ∧ tx ≤ r.2.2.1 ∧ r.2.1 ≤ ty ∧ ty ≤ r.2.2.2.1

instance {α : Type} (tx ty : ℤ) (r : ℤ × ℤ × ℤ × ℤ × α) :
    Decidable (inRect tx ty r) := by
  unfold inRect
  infer_instance

def regPayload {α : Type} (r : ℤ × ℤ × ℤ × ℤ × α) : α := r.2.2.2.2

/-- Claim C7: `hit_test` returns the payload of the first region in
declaration order whose inclusive rectangle contains the point, and returns
`None` exactly when no region contains it. -/
theorem hit_test_first_match {α : Type} (tx ty : ℤ) (rs : List (ℤ × ℤ × ℤ × ℤ × α)) :
    (∀ p, hit_test tx ty rs = some p ↔
      ∃ pre r post, rs = pre ++ r :: post ∧ inRect tx ty r ∧ regPayload r = p ∧
        ∀ r' ∈ pre, ¬ inRect tx ty r') ∧
    (hit_test tx ty rs = none ↔ ∀ r ∈ rs, ¬ inRect tx ty r) := by
  induction rs with
  | nil =>
    constructor
    · intro p
      simp [hit_test]
    · simp [hit_test]
  | cons a rest ih =>
    obtain ⟨x0, y0, x1, y1, pay⟩ := a
    by_cases h : inRect tx ty (x0, y0, x1, y1, pay)
    · have hcond : x0 ≤ tx ∧ tx ≤ x1 ∧ y0 ≤ ty ∧ y1 ≥ ty := by
        obtain ⟨h1, h2, h3, h4⟩ := h
        exact ⟨h1, h2, h3, h4⟩
      have heq : hit_test tx ty ((x0, y0, x1, y1, pay) :: rest) = some pay := by
        unfold hit_test
        rw [if_pos ⟨hcond.1, hcond.2.1, hcond.2.2.1, hcond.2.2.2⟩]
      constructor
      · intro p
        rw [heq]
        constructor
        · intro hp
          refine ⟨[], (x0, y0, x1, y1, pay), rest, by simp, h, ?_, by simp⟩
          simpa [regPayload] using hp
        · rintro ⟨pre, r, post, hsplit, hr, hpl, hpre⟩
          cases pre with
          | nil =>
            simp only [List.nil_append, List.cons.injEq] at hsplit
            rw [← hpl, ← hsplit.1]
            rfl
          | cons b pre' =>
            simp only [List.cons_append, List.cons.injEq] at hsplit
            exact absurd (hsplit.1 ▸ h) (hpre b (by simp))
      · rw [heq]
        constructor
        · intro hfalse
          exact absurd hfalse (by simp)
        · intro hall
          exact absurd h (hall _ (by simp))
    · have heq : hit_test tx ty ((x0, y0, x1, y1, pay) :: rest) = hit_test tx ty rest := by
        have hc : ¬ (x0 ≤ tx ∧ tx ≤ x1 ∧ y0 ≤ ty ∧ ty ≤ y1) := by
          intro hc
          exact h ⟨hc.1, hc.2.1, hc.2.2.1, hc.2.2.2⟩
        simp only [hit_test, if_neg hc]
      constructor
      · intro p
        rw [heq, (ih.1 p)]
        constructor
        · rintro ⟨pre, r, post, hsplit, hr, hpl, hpre⟩
          refine ⟨(x0, y0, x1, y1, pay) :: pre, r, post, by rw [hsplit]; rfl, hr, hpl, ?_⟩
          intro r' hr'
          rcases List.mem_cons.mp hr' with h1 | h1
          · rw [h1]; exact h
          · exact hpre r' h1
        · rintro ⟨pre, r, post, hsplit, hr, hpl, hpre⟩
          cases pre with
          | nil =>
            simp only [List.nil_append, List.cons.injEq] at hsplit
            exact absurd (hsplit.1 ▸ hr) h
          | cons b pre' =>
            simp only [List.cons_append, List.cons.injEq] at hsplit
            refine ⟨pre', r, post, hsplit.2, hr, hpl, ?_⟩
            intro r' hr'
            exact hpre r' (by simp [hr'])
      · rw [heq, ih.2]
        constructor
        · intro hall r hr
          rcases List.mem_cons.mp hr with h1 | h1
          · rw [h1]; exact h
          · exact hall r h1
        · intro hall r hr
          exact hall r (by simp [hr])

def DASHBOARD_PIE_REGION : List (ℤ × ℤ × ℤ × ℤ × String) :=
  [(14, 82, 96, 162, SCREEN_APPS)]

def BACK_REGION : List (ℤ × ℤ × ℤ × ℤ × String) :=
  [(0, ILI_H - BOT_H, 100, ILI_H, SCREEN_DASHBOARD)]

/-- Witness for C7: a point outside the dashboard pie region yields `none`. -/
theorem hit_test_first_match_witness :
    hit_test 200 200 DASHBOARD_PIE_REGION = none :=
  (hit_test_first_match 200 200 DASHBOARD_PIE_REGION).2.mpr (by decide)

/-! ## UI state and touch routing (ui-both-displays: AppState / handle_touch) -/

/-- The fields of `AppState` that touch routing and the focus timer read or
write. -/
structure UIState where
  screen : String
  apps_rects : List (ℤ × ℤ × ℤ × ℤ × String)
  clean_done : Bool
  focus_session_mins : ℕ
  focus_elapsed_mins : ℕ
  focus_active : Bool
  focus_message : String
deriving DecidableEq

/-- `AppState.__init__`: dashboard screen, no rects, 25-minute session
configured, nothing elapsed, no active session. -/
def initState : UIState :=
  { screen := SCREEN_DASHBOARD
    apps_rects := []
    clean_done := false
    focus_session_mins := 25
    focus_elapsed_mins := 0
    focus_active := false
    focus_message := "" }

/-- `handle_touch(x, y)`: route a validated touch to a screen transition or
action; returns the updated state and the `changed` flag.  (Python tests the
`hit_test` result with `if target:`; every payload in this program is a
nonempty screen-name string, so truthiness coincides with `Option.isSome`.) -/
def handle_touch (st : UIState) (x y : ℤ) : UIState × Bool :=
  if st.screen = SCREEN_DASHBOARD then
    match hit_test x y DASHBOARD_PIE_REGION with
    | some target => ({ st with screen := target }, true)
    | none => (st, false)
  else if st.screen = SCREEN_APPS then
    match hit_test x y st.apps_rects with
    | some target => ({ st with screen := target }, true)
    | none =>
      match hit_test x y BACK_REGION with
      | some back => ({ st with screen := back }, true)
      | none => (st, false)
  else
    match hit_test x y BACK_REGION with
    | some back =>
      let st1 :=
        if st.screen = SCREEN_FOCUS ∧ st.focus_active = true then
          { st with focus_active := false, focus_elapsed_mins := 0,
                    focus_message := "Session ended." }
        else st
      let st2 := if st.screen = SCREEN_SYSMON then { st1 with clean_done := false } else st1
      ({ st2 with screen := back }, true)
    | none =>
      if st.screen = SCREEN_SYSMON ∧ st.clean_done = false then
        ({ st with clean_done := true }, true)
      else (st, false)

/-- Claim C8: from the Focus screen with an active session, a touch inside the
back region transitions to Dashboard, clears `focus_active` and resets the
elapsed counter to 0 (and reports the state as changed). -/
theorem focus_back_cancels (st : UIState) (x y : ℤ)
    (hs : st.screen = SCREEN_FOCUS) (ha : st.focus_active = true)
    (hx0 : 0 ≤ x) (hx1 : x ≤ 100) (hy0 : ILI_H - BOT_H ≤ y) (hy1 : y ≤ ILI_H) :
    (handle_touch st x y).1.screen = SCREEN_DASHBOARD ∧
    (handle_touch st x y).1.focus_active = false ∧
    (handle_touch st x y).1.focus_elapsed_mins = 0 ∧
    (handle_touch st x y).2 = true := by
  have hback : hit_test x y BACK_REGION = some SCREEN_DASHBOARD := by
    unfold BACK_REGION hit_test
    rw [if_pos ⟨hx0, hx1, hy0, hy1⟩]
  have hnd : ¬ st.screen = SCREEN_DASHBOARD := by
    rw [hs]
    decide
  have hna : ¬ st.screen = SCREEN_APPS := by
    rw [hs]
    decide
  have hns : ¬ st.screen = SCREEN_SYSMON := by
    rw [hs]
    decide
  unfold handle_touch
  rw [if_neg hnd, if_neg hna, hback]
  simp only [if_pos (And.intro hs ha), if_neg hns]
  simp

/-- A concrete focus-screen state with an active session, used as the C8
witness input. -/
def focusDemoState : UIState :=
  { initState with screen := SCREEN_FOCUS, focus_active := true, focus_elapsed_mins := 8 }

/-- Witness for C8 at the concrete state `focusDemoState` and touch (50, 230). -/
theorem focus_back_cancels_witness :
    (handle_touch focusDemoState 50 230).1.screen = SCREEN_DASHBOARD ∧
    (handle_touch focusDemoState 50 230).1.focus_active = false ∧
    (handle_touch focusDemoState 50 230).1.focus_elapsed_mins = 0 ∧
    (handle_touch focusDemoState 50 230).2 = true :=
  focus_back_cancels focusDemoState 50 230 rfl rfl (by decide) (by decide)
    (by decide) (by decide)


/-! ## Debounce (the touch block of ui-both-displays.main) -/

def DEBOUNCE_MS : ℚ := 300

/-- The loop-carried state of `main`'s touch handling: `last_touch_ms` plus
the UI state that `handle_touch` mutates. -/
structure LoopSt where
  last_touch_ms : ℚ
  ui : UIState

/-- One iteration of the touch block in `main`'s loop: if `read_touch`
returned a point and `now_ms - last_touch_ms > DEBOUNCE_MS`, record the
timestamp and call `handle_touch`; otherwise do nothing.  The returned flag
records whether the touch was routed to `handle_touch`. -/
def touch_step (s : LoopSt) (now_ms : ℚ) : Option (ℤ × ℤ) → LoopSt × Bool
  | none => (s, false)
  | some (x, y) =>
    if DEBOUNCE_MS < now_ms - s.last_touch_ms then
      ({ last_touch_ms := now_ms, ui := (handle_touch s.ui x y).1 }, true)
    else (s, false)

/-- Iterate `touch_step` over a list of (timestamp, read_touch result) events,
collecting the routed/ignored flag of each event. -/
def run_touches (s : LoopSt) : List (ℚ × Option (ℤ × ℤ)) → List Bool
  | [] => []
  | (t, pt) :: evs => (touch_step s t pt).2 :: run_touches (touch_step s t pt).1 evs

/-- The timestamps of the events that pass the debounce window. -/
def accepted_times (s : LoopSt) : List (ℚ × Option (ℤ × ℤ)) → List ℚ
  | [] => []
  | (t, pt) :: evs =>
    if (touch_step s t pt).2 = true then t :: accepted_times (touch_step s t pt).1 evs
    else accepted_times (touch_step s t pt).1 evs

theorem touch_step_accept (s : LoopSt) (t : ℚ) (x y : ℤ)
    (h : DEBOUNCE_MS < t - s.last_touch_ms) :
    touch_step s t (some (x, y)) =
      ({ last_touch_ms := t, ui := (handle_touch s.ui x y).1 }, true) := by
  simp only [touch_step]
  rw [if_pos h]

theorem touch_step_reject (s : LoopSt) (t : ℚ) (x y : ℤ)
    (h : ¬ DEBOUNCE_MS < t - s.last_touch_ms) :
    touch_step s t (some (x, y)) = (s, false) := by
  simp only [touch_step]
  rw [if_neg h]

/-- Claim C5: under the 300 ms debounce, once a touch is accepted a second
touch 250 ms later is ignored entirely (not routed, state unchanged), a second
touch 350 ms later is also accepted and routed, and every accepted touch is
separated from the previously accepted one by at least the debounce
interval. -/
theorem debounce_spec (s : LoopSt) (t₁ t₂ : ℚ) (p₁ p₂ : ℤ × ℤ)
    (h₁ : DEBOUNCE_MS < t₁ - s.last_touch_ms) :
    (t₂ - t₁ = 250 →
      run_touches s [(t₁, some p₁), (t₂, some p₂)] = [true, false] ∧
      touch_step (touch_step s t₁ (some p₁)).1 t₂ (some p₂) =
        ((touch_step s t₁ (some p₁)).1, false)) ∧
    (t₂ - t₁ = 350 →
      run_touches s [(t₁, some p₁), (t₂, some p₂)] = [true, true]) ∧
    (∀ (s' : LoopSt) (t : ℚ) (p : ℤ × ℤ), (touch_step s' t (some p)).2 = true →
      DEBOUNCE_MS ≤ t - s'.last_touch_ms) := by
  obtain ⟨x₁, y₁⟩ := p₁
  obtain ⟨x₂, y₂⟩ := p₂
  have hstep1 := touch_step_accept s t₁ x₁ y₁ h₁
  refine ⟨?_, ?_, ?_⟩
  · intro h250
    have hno : ¬ DEBOUNCE_MS < t₂ -
        (touch_step s t₁ (some (x₁, y₁))).1.last_touch_ms := by
      rw [hstep1]
      show ¬ DEBOUNCE_MS < t₂ - t₁
      rw [h250]
      norm_num [DEBOUNCE_MS]
    have hstep2 := touch_step_reject (touch_step s t₁ (some (x₁, y₁))).1 t₂ x₂ y₂ hno
    refine ⟨?_, hstep2⟩
    have hstep2' := hstep2
    rw [hstep1] at hstep2'
    simp only [run_touches, hstep1, hstep2']
  · intro h350
    have hyes : DEBOUNCE_MS < t₂ -
        (touch_step s t₁ (some (x₁, y₁))).1.last_touch_ms := by
      rw [hstep1]
      show DEBOUNCE_MS < t₂ - t₁
      rw [h350]
      norm_num [DEBOUNCE_MS]
    have hstep2 := touch_step_accept (touch_step s t₁ (some (x₁, y₁))).1 t₂ x₂ y₂ hyes
    rw [hstep1] at hstep2
    simp only [run_touches, hstep1, hstep2]
  · intro s' t p hroute
    obtain ⟨x, y⟩ := p
    by_cases h : DEBOUNCE_MS < t - s'.last_touch_ms
    · exact le_of_lt h
    · rw [touch_step_reject s' t x y h] at hroute
      exact absurd hroute (by simp)

/-- Witness for C5: from `last_touch_ms = 0`, touches at 1000 ms and 1250 ms
give routed-then-ignored. -/
theorem debounce_spec_witness :
    run_touches ⟨0, initState⟩ [(1000, some (50, 230)), (1250, some (50, 230))] =
      [true, false] :=
  ((debounce_spec ⟨0, initState⟩ 1000 1250 (50, 230) (50, 230)
    (by norm_num [DEBOUNCE_MS])).1 (by norm_num)).1

/-- Claim C9 counterexample: with `last_touch_ms = 0`, touches are detected at
400 ms (accepted), 650 ms (debounce-rejected) and 800 ms.  The 800 ms touch is
routed even though it arrives only 150 ms after the detected touch at 650 ms,
because a debounce-rejected touch does not update the recorded timestamp — so
a touch within 300 ms of a previously *detected* touch can still be routed,
contrary to the claim. -/
theorem debounce_detected_counterexample :
    run_touches ⟨0, initState⟩
      [(400, some (50, 230)), (650, some (50, 230)), (800, some (50, 230))] =
      [true, false, true] ∧ (800 : ℚ) - 650 < DEBOUNCE_MS := by
  have h1 : touch_step (⟨0, initState⟩ : LoopSt) 400 (some (50, 230)) =
      ({ last_touch_ms := 400, ui := (handle_touch initState 50 230).1 }, true) :=
    touch_step_accept _ 400 50 230 (by norm_num [DEBOUNCE_MS])
  have h2 : touch_step
      ({ last_touch_ms := 400, ui := (handle_touch initState 50 230).1 } : LoopSt)
      650 (some (50, 230)) =
      ({ last_touch_ms := 400, ui := (handle_touch initState 50 230).1 }, false) :=
    touch_step_reject _ 650 50 230 (by norm_num [DEBOUNCE_MS])
  have h3 : (touch_step
      ({ last_touch_ms := 400, ui := (handle_touch initState 50 230).1 } : LoopSt)
      800 (some (50, 230))).2 = true := by
    rw [touch_step_accept _ 800 50 230 (by norm_num [DEBOUNCE_MS])]
  constructor
  · simp only [run_touches, h1, h2, h3]
  · norm_num [DEBOUNCE_MS]

theorem accepted_times_chain (evs : List (ℚ × Option (ℤ × ℤ))) :
    ∀ s : LoopSt, List.Chain' (fun a b => DEBOUNCE_MS < b - a)
      (s.last_touch_ms :: accepted_times s evs) := by
  induction evs with
  | nil =>
    intro s
    simp [accepted_times]
  | cons ev rest ih =>
    intro s
    obtain ⟨t, pt⟩ := ev
    match pt with
    | none =>
      have hstep : touch_step s t none = (s, false) := rfl
      unfold accepted_times
      rw [hstep]
      simpa using ih s
    | some (x, y) =>
      by_cases h : DEBOUNCE_MS < t - s.last_touch_ms
      · have hstep := touch_step_accept s t x y h
        unfold accepted_times
        rw [hstep]
        simp only [if_pos rfl]
        have htail := ih ({ last_touch_ms := t, ui := (handle_touch s.ui x y).1 } : LoopSt)
        exact List.Chain'.cons h htail
      · have hstep := touch_step_reject s t x y h
        unfold accepted_times
        rw [hstep]
        simpa using ih s

/-- Claim C9 (amended): whenever a detected touch passes the debounce window,
the recorded last-touch timestamp is updated to the touch's time even if the
touch matches no hit-region; consequently the accepted (routed) touches —
starting from the initial recorded timestamp — are pairwise separated by more
than 300 ms, so any touch arriving within 300 ms of any previously
*debounce-accepted* touch (not merely of one that changed the router state) is
never routed to `handle_touch`. -/
theorem debounce_accepted_pairwise (s₀ : LoopSt) (evs : List (ℚ × Option (ℤ × ℤ))) :
    (∀ (s : LoopSt) (t : ℚ) (p : ℤ × ℤ), DEBOUNCE_MS < t - s.last_touch_ms →
      (touch_step s t (some p)).1.last_touch_ms = t ∧
      (touch_step s t (some p)).2 = true) ∧
    List.Pairwise (fun a b => DEBOUNCE_MS < b - a)
      (s₀.last_touch_ms :: accepted_times s₀ evs) := by
  constructor
  · intro s t p h
    obtain ⟨x, y⟩ := p
    rw [touch_step_accept s t x y h]
    exact ⟨rfl, rfl⟩
  · haveI : IsTrans ℚ (fun a b => DEBOUNCE_MS < b - a) := by
      constructor
      intro a b c h1 h2
      simp only [DEBOUNCE_MS] at *
      linarith
    exact List.chain'_iff_pairwise.mp (accepted_times_chain evs s₀)

/-- Witness for the amended C9: a debounce-passing touch at 1000 ms updates the
timestamp to 1000 and is routed. -/
theorem debounce_accepted_pairwise_witness :
    (touch_step ⟨0, initState⟩ 1000 (some (50, 230))).1.last_touch_ms = 1000 ∧
    (touch_step ⟨0, initState⟩ 1000 (some (50, 230))).2 = true :=
  (debounce_accepted_pairwise ⟨0, initState⟩ []).1 ⟨0, initState⟩ 1000 (50, 230)
    (by norm_num [DEBOUNCE_MS])

/-! ## Focus timer (ui-both-displays.tick_focus) -/

/-- The state `tick_focus` reaches when the session is still running after a
tick: the elapsed-minute counter advanced by one. -/
def tickAdvanced (st : UIState) : UIState :=
  { st with focus_elapsed_mins := st.focus_elapsed_mins + 1 }

/-- The state `tick_focus` reaches when the advanced counter has hit the
configured session length: session ended with the completion message. -/
def tickCompleted (st : UIState) : UIState :=
  { tickAdvanced st with focus_active := false, focus_message := "Session complete!" }

/-- `tick_focus()` from ui-both-displays, with the globals `state` and
`_focus_last_tick` passed and returned explicitly.  If no session is active,
nothing happens; otherwise, once 60 real seconds have passed since the last
advance, record the tick time, increment the elapsed-minute counter, and if it
has reached the configured session length, end the session. -/
def tick_focus (st : UIState) (focus_last_tick now : ℚ) : UIState × ℚ :=
  if st.focus_active = true then
    if 60 ≤ now - focus_last_tick then
      if st.focus_session_mins ≤ (tickAdvanced st).focus_elapsed_mins then
        (tickCompleted st, now)
      else (tickAdvanced st, now)
    else (st, focus_last_tick)
  else (st, focus_last_tick)

/-- Claim C10: when the session is active and at least 60 s have passed since
the last advance, `tick_focus` increments `focus_elapsed_mins` by exactly one
(and records the tick time); if the incremented count reaches
`focus_session_mins`, it clears `focus_active` and sets the message to
"Session complete!"; hence with `focus_session_mins ≥ 1` the invariant "an
active session satisfies `focus_elapsed_mins < focus_session_mins`" is
preserved by every `tick_focus` call, so the session self-terminates. -/
theorem tick_focus_spec (st : UIState) (lastTick now : ℚ) :
    (st.focus_active = true → 60 ≤ now - lastTick →
      (tick_focus st lastTick now).1.focus_elapsed_mins = st.focus_elapsed_mins + 1 ∧
      (tick_focus st lastTick now).2 = now) ∧
    (st.focus_active = true → 60 ≤ now - lastTick →
      st.focus_session_mins ≤ st.focus_elapsed_mins + 1 →
      (tick_focus st lastTick now).1.focus_active = false ∧
      (tick_focus st lastTick now).1.focus_message = "Session complete!") ∧
    (1 ≤ st.focus_session_mins →
      (st.focus_active = true → st.focus_elapsed_mins < st.focus_session_mins) →
      ((tick_focus st lastTick now).1.focus_active = true →
        (tick_focus st lastTick now).1.focus_elapsed_mins <
          (tick_focus st lastTick now).1.focus_session_mins)) := by
  by_cases ha : st.focus_active = true
  · by_cases ht : 60 ≤ now - lastTick
    · by_cases hd : st.focus_session_mins ≤ (tickAdvanced st).focus_elapsed_mins
      · have heq : tick_focus st lastTick now = (tickCompleted st, now) := by
          unfold tick_focus
          rw [if_pos ha, if_pos ht, if_pos hd]
        rw [heq]
        refine ⟨fun _ _ => ⟨rfl, rfl⟩, fun _ _ _ => ⟨rfl, rfl⟩, ?_⟩
        intro _ _ hact
        exact absurd hact (by simp [tickCompleted, tickAdvanced])
      · have heq : tick_focus st lastTick now = (tickAdvanced st, now) := by
          unfold tick_focus
          rw [if_pos ha, if_pos ht, if_neg hd]
        have hd' : ¬ st.focus_session_mins ≤ st.focus_elapsed_mins + 1 := hd
        rw [heq]
        refine ⟨fun _ _ => ⟨rfl, rfl⟩, fun _ _ hc => absurd hc hd', ?_⟩
        intro _ _ _
        show (tickAdvanced st).focus_elapsed_mins < (tickAdvanced st).focus_session_mins
        simp only [tickAdvanced]
        omega
    · have heq : tick_focus st lastTick now = (st, lastTick) := by
        unfold tick_focus
        rw [if_pos ha, if_neg ht]
      rw [heq]
      exact ⟨fun _ ht' => absurd ht' ht, fun _ ht' => absurd ht' ht,
        fun _ hinv hact => hinv hact⟩
  · have heq : tick_focus st lastTick now = (st, lastTick) := by
      unfold tick_focus
      rw [if_neg ha]
    rw [heq]
    exact ⟨fun ha' => absurd ha' ha, fun ha' => absurd ha' ha,
      fun _ hinv hact => hinv hact⟩

/-- A concrete state one minute away from session completion, used as the C10
witness input. -/
def almostDoneState : UIState :=
  { initState with focus_active := true, focus_elapsed_mins := 24 }

/-- Witness for C10: at `almostDoneState` (24 of 25 minutes elapsed) a tick at
60 s increments the counter to 25, ends the session and sets the completion
message. -/
theorem tick_focus_spec_witness :
    (tick_focus almostDoneState 0 60).1.focus_elapsed_mins =
      almostDoneState.focus_elapsed_mins + 1 ∧
    (tick_focus almostDoneState 0 60).1.focus_active = false ∧
    (tick_focus almostDoneState 0 60).1.focus_message = "Session complete!" :=
  ⟨((tick_focus_spec almostDoneState 0 60).1 rfl (by norm_num)).1,
   ((tick_focus_spec almostDoneState 0 60).2.1 rfl (by norm_num) (by decide)).1,
   ((tick_focus_spec almostDoneState 0 60).2.1 rfl (by norm_num) (by decide)).2⟩

end AndDesk
